import Mathlib

/-!
Shallow embedding of the resume-extraction service
(`resume_extractor.py`, `advanced_features.py`) and proofs about it.

Python strings are embedded as `List Char`, Python floats as `ℚ`
(with `round` embedded as round-half-to-even), dictionaries as
structures whose fields are `Option`-valued to distinguish an absent
key from a present value, and fallible code as `Option`/`Except`.
External libraries (dateutil, NLTK, the Ollama client, json.loads)
are abstracted as explicit function parameters.
-/

namespace Resume

/-- Python strings are embedded as lists of characters. -/
abbrev Str := List Char

def spC : Char := ' '
def nlC : Char := Char.ofNat 10
def tabC : Char := Char.ofNat 9
def crC : Char := Char.ofNat 13
def vtC : Char := Char.ofNat 11
def ffC : Char := Char.ofNat 12
def sqC : Char := Char.ofNat 39
def dqC : Char := Char.ofNat 34
def btC : Char := Char.ofNat 96
def pipeC : Char := '|'
def commaC : Char := ','
def braceLC : Char := Char.ofNat 123
def braceRC : Char := Char.ofNat 125
def brackRC : Char := ']'
def atC : Char := '@'
def dollarC : Char := '$'
def plusC : Char := '+'
def pctC : Char := '%'
def upperIC : Char := 'I'

/-- The characters matched by the Python regex class backslash-s and
stripped by `str.strip` (ASCII fragment). -/
def isPySpace (c : Char) : Bool :=
  c == spC || c == tabC || c == nlC || c == crC || c == vtC || c == ffC

def isLowerAlpha (c : Char) : Bool := decide (97 ≤ c.toNat ∧ c.toNat ≤ 122)

def isUpperAlpha (c : Char) : Bool := decide (65 ≤ c.toNat ∧ c.toNat ≤ 90)

def isDigitCh (c : Char) : Bool := decide (48 ≤ c.toNat ∧ c.toNat ≤ 57)

/-- ASCII fragment of Python `str.lower()`, applied characterwise. -/
def toLowerCh (c : Char) : Char :=
  if isUpperAlpha c then Char.ofNat (c.toNat + 32) else c

def lowerStr (s : Str) : Str := s.map toLowerCh

/-- Python `str.strip()`: drop leading and trailing whitespace. -/
def pyStrip (s : Str) : Str :=
  ((s.dropWhile isPySpace).reverse.dropWhile isPySpace).reverse

def strStartsWith : Str → Str → Bool
  | _, [] => true
  | [], _ :: _ => false
  | c :: cs, d :: ds => c == d && strStartsWith cs ds

/-- Python `needle in hay` on strings: substring containment. -/
def strContains : Str → Str → Bool
  | [], needle => needle.isEmpty
  | c :: rest, needle => strStartsWith (c :: rest) needle || strContains rest needle

/-- Python `str.endswith`. -/
def strEndsWith (s t : Str) : Bool := strStartsWith s.reverse t.reverse

theorem length_dropWhile_le_self (p : Char → Bool) (l : List Char) :
    (l.dropWhile p).length ≤ l.length := by
  induction l with
  | nil => simp [List.dropWhile]
  | cons c rest ih =>
    by_cases h : p c
    · simpa [List.dropWhile, h] using Nat.le_succ_of_le ih
    · simp [List.dropWhile, h]

/-! ## Python `round` (half to even), embedded over `ℚ` -/

/-- Round half to even: the rounding mode of the Python builtin `round`. -/
def roundHalfEven (q : ℚ) : ℤ :=
  if q - ⌊q⌋ < 1/2 then ⌊q⌋
  else if (1 : ℚ)/2 < q - ⌊q⌋ then ⌊q⌋ + 1
  else if ⌊q⌋ % 2 = 0 then ⌊q⌋ else ⌊q⌋ + 1

/-- Python `round(q, 1)`. -/
def pyRound1 (q : ℚ) : ℚ := (roundHalfEven (q * 10) : ℚ) / 10

/-- Python `round(q, 2)`. -/
def pyRound2 (q : ℚ) : ℚ := (roundHalfEven (q * 100) : ℚ) / 100

theorem roundHalfEven_intCast (n : ℤ) : roundHalfEven (n : ℚ) = n := by
  unfold roundHalfEven
  norm_num

theorem roundHalfEven_nonneg {q : ℚ} (h : 0 ≤ q) : 0 ≤ roundHalfEven q := by
  have hf : (0 : ℤ) ≤ ⌊q⌋ := Int.floor_nonneg.mpr h
  unfold roundHalfEven
  split
  · exact hf
  · split
    · omega
    · split
      · exact hf
      · omega

theorem roundHalfEven_le_intCast {q : ℚ} {n : ℤ} (h : q ≤ (n : ℚ)) :
    roundHalfEven q ≤ n := by
  have hf : ⌊q⌋ ≤ n := by
    have := Int.floor_le_floor h
    simpa using this
  by_cases hlt : q - ⌊q⌋ < 1/2
  · simp only [roundHalfEven, if_pos hlt]
    exact hf
  · have hhalf : (1 : ℚ)/2 ≤ q - ⌊q⌋ := le_of_not_lt hlt
    have hqf : (⌊q⌋ : ℚ) + 1/2 ≤ q := by linarith
    have hlt2 : (⌊q⌋ : ℚ) < (n : ℚ) := by linarith
    have hfn : ⌊q⌋ < n := by exact_mod_cast hlt2
    unfold roundHalfEven
    split
    · exact hf
    · split
      · omega
      · split
        · exact hf
        · omega

theorem pyRound1_nonneg {q : ℚ} (h : 0 ≤ q) : 0 ≤ pyRound1 q := by
  unfold pyRound1
  have : (0 : ℤ) ≤ roundHalfEven (q * 10) := roundHalfEven_nonneg (by positivity)
  positivity

theorem pyRound2_nonneg {q : ℚ} (h : 0 ≤ q) : 0 ≤ pyRound2 q := by
  unfold pyRound2
  have : (0 : ℤ) ≤ roundHalfEven (q * 100) := roundHalfEven_nonneg (by positivity)
  positivity

theorem pyRound2_le_100 {q : ℚ} (h : q ≤ 100) : pyRound2 q ≤ 100 := by
  have h1 : q * 100 ≤ ((10000 : ℤ) : ℚ) := by push_cast; linarith
  have h2 : roundHalfEven (q * 100) ≤ 10000 := roundHalfEven_le_intCast h1
  unfold pyRound2
  rw [div_le_iff (by norm_num : (0 : ℚ) < 100)]
  exact_mod_cast h2

theorem pyRound2_natCast (s : ℕ) : pyRound2 ((s : ℚ)) = (s : ℚ) := by
  unfold pyRound2
  have h : ((s : ℚ)) * 100 = (((s * 100 : ℕ) : ℤ) : ℚ) := by push_cast; ring
  rw [h, roundHalfEven_intCast]
  push_cast
  field_simp

/-! ## JSON values and the LLM extraction path (`ResumeExtractor`) -/

/-- JSON documents, as produced by `json.loads`. -/
inductive JsonVal where
  | jnull : JsonVal
  | jstr : Str → JsonVal
  | jarr : List JsonVal → JsonVal
  | jobj : List (Str × JsonVal) → JsonVal

def lookupAssoc : List (Str × JsonVal) → Str → Option JsonVal
  | [], _ => none
  | (k, v) :: rest, key => if k = key then some v else lookupAssoc rest key

def jsonLookup (v : JsonVal) (key : Str) : Option JsonVal :=
  match v with
  | JsonVal.jobj fields => lookupAssoc fields key
  | _ => none

/-- One pass of the substitution deleting a literal marker `m0 :: ms`
together with the whitespace run following it (used for the markdown
code-fence markers in `clean_json_response`). -/
def removeMarkerRun (m0 : Char) (ms : Str) : Str → Str
  | [] => []
  | c :: rest =>
    if c == m0 && strStartsWith rest ms then
      removeMarkerRun m0 ms ((rest.drop ms.length).dropWhile isPySpace)
    else
      c :: removeMarkerRun m0 ms rest
termination_by s => s.length
decreasing_by
  · simp only [List.length_cons]
    have h1 := length_dropWhile_le_self isPySpace (rest.drop ms.length)
    have h2 : (rest.drop ms.length).length ≤ rest.length := by
      simp [List.length_drop]
    omega
  · simp [List.length_cons]

def tickJsonTail : Str := [btC, btC] ++ ("json".toList)
def tickTail : Str := [btC, btC]

def findIdxOf (c : Char) (s : Str) : Option ℕ := s.findIdx? (fun x => x == c)

/-- Python `str.rfind` as an optional index. -/
def rfindIdxOf (c : Char) (s : Str) : Option ℕ :=
  match (s.reverse).findIdx? (fun x => x == c) with
  | some ri => some (s.length - 1 - ri)
  | none => none

/-- Embedding of `ResumeExtractor.clean_json_response`: strip markdown
code fences, then slice from the first opening brace to the last closing
brace (both when found). -/
def clean_json_response (text : Str) : Str :=
  let t1 := removeMarkerRun btC tickJsonTail text
  let t2 := removeMarkerRun btC tickTail t1
  match findIdxOf braceLC t2, rfindIdxOf braceRC t2 with
  | some i, some j => (t2.drop i).take (j + 1 - i)
  | _, _ => t2

/-- Removal of commas trailing before a closing character `close` (the
substitution applied by `fix_json_errors` for both closing braces and
closing brackets). -/
def subCommaClose (close : Char) : Str → Str
  | [] => []
  | c :: rest =>
    if c == commaC then
      match h : rest.dropWhile isPySpace with
      | c2 :: rest3 =>
        if c2 == close then close :: subCommaClose close rest3
        else c :: subCommaClose close rest
      | [] => c :: subCommaClose close rest
    else c :: subCommaClose close rest
termination_by s => s.length
decreasing_by
  · simp only [List.length_cons]
    have h1 := length_dropWhile_le_self isPySpace rest
    rw [h] at h1
    simp only [List.length_cons] at h1
    omega
  · simp [List.length_cons]
  · simp [List.length_cons]
  · simp [List.length_cons]

/-- The string repair performed by `fix_json_errors`: single quotes to
double quotes, then removal of trailing commas before `}` and `]`. -/
def fix_transform (t : Str) : Str :=
  subCommaClose brackRC (subCommaClose braceRC
    (t.map (fun c => if c == sqC then dqC else c)))

def keyPersonalInfo : Str := ("personal_info".toList)
def keyName : Str := ("name".toList)
def keyExperience : Str := ("experience".toList)
def keyEducation : Str := ("education".toList)
def keySkills : Str := ("skills".toList)
def keyTechnical : Str := ("technical".toList)
def keySoft : Str := ("soft".toList)
def keyLanguages : Str := ("languages".toList)
def keyTools : Str := ("tools".toList)
def errName : Str := ("Error parsing resume".toList)

/-- The minimal placeholder record returned when all JSON repair fails. -/
def error_placeholder : JsonVal :=
  JsonVal.jobj
    [ (keyPersonalInfo, JsonVal.jobj [(keyName, JsonVal.jstr errName)]),
      (keyExperience, JsonVal.jarr []),
      (keyEducation, JsonVal.jarr []),
      (keySkills, JsonVal.jobj
        [ (keyTechnical, JsonVal.jarr []),
          (keySoft, JsonVal.jarr []),
          (keyLanguages, JsonVal.jarr []),
          (keyTools, JsonVal.jarr []) ]) ]

/-- Embedding of `ResumeExtractor.fix_json_errors`, with `json.loads`
abstracted as `parse`: apply the string repair, retry parsing, and fall
back to the placeholder record (the surrounding bare `except` never
re-raises). -/
def fix_json_errors (parse : Str → Option JsonVal) (json_text : Str) : JsonVal :=
  match parse (fix_transform json_text) with
  | some d => d
  | none => error_placeholder

/-- The retry loop body of `extract_with_llm`. `responses i` is the LLM
response text of attempt `i` and `remaining` is the number of attempts
left (`max_retries - attempt`). -/
def extract_llm_go (parse : Str → Option JsonVal) (responses : ℕ → Str)
    (max_retries : ℕ) : ℕ → ℕ → Option JsonVal
  | _, 0 => none
  | attempt, remaining + 1 =>
    let json_text := clean_json_response (responses attempt)
    match parse json_text with
    | some d => some d
    | none =>
      if attempt = max_retries - 1 then some (fix_json_errors parse json_text)
      else extract_llm_go parse responses max_retries (attempt + 1) remaining

/-- Embedding of `ResumeExtractor.extract_with_llm` over an abstract
sequence of LLM responses; `none` models falling out of the loop
(`max_retries = 0`). -/
def extract_with_llm (parse : Str → Option JsonVal) (responses : ℕ → Str)
    (max_retries : ℕ) : Option JsonVal :=
  extract_llm_go parse responses max_retries 0 max_retries

theorem extract_llm_go_congr (parse : Str → Option JsonVal)
    (r r' : ℕ → Str) (m : ℕ) :
    ∀ remaining attempt, attempt + remaining ≤ m →
      (∀ i, i < m → r i = r' i) →
      extract_llm_go parse r m attempt remaining
        = extract_llm_go parse r' m attempt remaining := by
  intro remaining
  induction remaining with
  | zero => intro attempt _ _; rfl
  | succ k ih =>
    intro attempt hle hagree
    have hlt : attempt < m := by omega
    have hr : r attempt = r' attempt := hagree attempt hlt
    simp only [extract_llm_go, hr]
    cases parse (clean_json_response (r' attempt)) with
    | some d => rfl
    | none =>
      simp only []
      by_cases hlast : attempt = m - 1
      · simp [hlast]
      · simp only [if_neg hlast]
        exact ih (attempt + 1) (by omega) hagree

theorem extract_llm_go_all_fail (parse : Str → Option JsonVal)
    (r : ℕ → Str) (m : ℕ)
    (hfail : ∀ i, i < m → parse (clean_json_response (r i)) = none) :
    ∀ remaining attempt, attempt + remaining = m → 0 < remaining →
      extract_llm_go parse r m attempt remaining
        = some (fix_json_errors parse (clean_json_response (r (m - 1)))) := by
  intro remaining
  induction remaining with
  | zero => intro attempt _ h; omega
  | succ k ih =>
    intro attempt hsum _
    have hlt : attempt < m := by omega
    simp only [extract_llm_go, hfail attempt hlt]
    by_cases hlast : attempt = m - 1
    · subst hlast; simp
    · have hk : 0 < k := by omega
      simp only [if_neg hlast]
      exact ih (attempt + 1) (by omega) hk

/-! ## The resume schema (pydantic models) and `validate_and_enhance`

Input dictionaries are embedded with `Option`-valued fields: `none`
models an absent key. (JSON `null` container values are outside the
modelled input space; for leaf string fields `null` and an absent key
lead to the same validation outcome and are identified.) -/

def presentWordList : List Str :=
  [("present".toList), ("current".toList), ("now".toList)]

def presentCap : Str := ("Present".toList)

/-- Output of the `parse_dates` validator on `Experience.start_date` /
`Experience.end_date`: a truthy value whose lowercase form is
present/current/now becomes `Present`. -/
def normalizeDate : Option Str → Option Str
  | none => none
  | some s => if s ≠ [] ∧ lowerStr s ∈ presentWordList then some presentCap else some s

structure InExp where
  company : Option Str := none
  position : Option Str := none
  start_date : Option Str := none
  end_date : Option Str := none
  location : Option Str := none
  responsibilities : Option (List Str) := none
deriving DecidableEq

structure InEdu where
  institution : Option Str := none
  degree : Option Str := none
  field_of_study : Option Str := none
  start_date : Option Str := none
  end_date : Option Str := none
  gpa : Option Str := none
  location : Option Str := none
deriving DecidableEq

structure InPersonal where
  name : Option Str := none
  email : Option Str := none
  phone : Option Str := none
  location : Option Str := none
  linkedin : Option Str := none
  github : Option Str := none
  website : Option Str := none
deriving DecidableEq

structure InSkills where
  technical : Option (List Str) := none
  soft : Option (List Str) := none
  languages : Option (List Str) := none
  tools : Option (List Str) := none
deriving DecidableEq

/-- The raw extracted dictionary handed to `validate_and_enhance`. -/
structure InData where
  personal_info : Option InPersonal := none
  summary : Option Str := none
  experience : Option (List InExp) := none
  education : Option (List InEdu) := none
  skills : Option InSkills := none
  certifications : Option (List Str) := none
  projects : Option (List (List (Str × Str))) := none
  achievements : Option (List Str) := none
deriving DecidableEq

/-- Validated pydantic model `Experience`. -/
structure Experience where
  company : Str
  position : Str
  start_date : Option Str
  end_date : Option Str
  location : Option Str
  responsibilities : List Str
deriving DecidableEq

/-- Validated pydantic model `Education`. -/
structure Education where
  institution : Str
  degree : Str
  field_of_study : Option Str
  start_date : Option Str
  end_date : Option Str
  gpa : Option Str
  location : Option Str
deriving DecidableEq

/-- Validated pydantic model `PersonalInfo` (`name` is required). -/
structure PersonalInfo where
  name : Str
  email : Option Str
  phone : Option Str
  location : Option Str
  linkedin : Option Str
  github : Option Str
  website : Option Str
deriving DecidableEq

structure Skills where
  technical : List Str
  soft : List Str
  languages : List Str
  tools : List Str
deriving DecidableEq

/-- Validated pydantic model `ResumeData`. -/
structure ResumeData where
  personal_info : PersonalInfo
  summary : Option Str
  experience : List Experience
  education : List Education
  skills : Skills
  certifications : List Str
  projects : List (List (Str × Str))
  achievements : List Str
deriving DecidableEq

/-- pydantic validation of one experience dictionary: `company` and
`position` are required, the date validator is applied, the
responsibility list defaults to empty. -/
def validateExp (e : InExp) : Option Experience :=
  match e.company, e.position with
  | some c, some p =>
    some { company := c, position := p,
           start_date := normalizeDate e.start_date,
           end_date := normalizeDate e.end_date,
           location := e.location,
           responsibilities := e.responsibilities.getD [] }
  | _, _ => none

/-- pydantic validation of one education dictionary: `institution` and
`degree` are required. -/
def validateEdu (e : InEdu) : Option Education :=
  match e.institution, e.degree with
  | some i, some d =>
    some { institution := i, degree := d,
           field_of_study := e.field_of_study,
           start_date := e.start_date, end_date := e.end_date,
           gpa := e.gpa, location := e.location }
  | _, _ => none

/-- pydantic validation of the personal-info dictionary: `name` is
required, the rest default to `None`. -/
def validatePersonal (p : InPersonal) : Option PersonalInfo :=
  match p.name with
  | some n =>
    some { name := n, email := p.email, phone := p.phone,
           location := p.location, linkedin := p.linkedin,
           github := p.github, website := p.website }
  | none => none

def skillsOfIn (s : InSkills) : Skills :=
  { technical := s.technical.getD [], soft := s.soft.getD [],
    languages := s.languages.getD [], tools := s.tools.getD [] }

def validateList {α β : Type} (f : α → Option β) : List α → Option (List β)
  | [] => some []
  | x :: xs =>
    match f x, validateList f xs with
    | some y, some ys => some (y :: ys)
    | _, _ => none

/-- The sort key of `validate_and_enhance`: whether the raw end date,
defaulting to `Present` when the key is absent, equals `Present`. -/
def endDateIsPresent (e : InExp) : Bool := e.end_date.getD presentCap == presentCap

/-- Stable insertion placing `x` before `y` whenever `k y ≤ k x` as
booleans: the comparison performed by the stable Python
`sorted(..., key=k, reverse=True)` with a boolean key. -/
def insertKeyDesc {α : Type} (k : α → Bool) (x : α) : List α → List α
  | [] => [x]
  | y :: ys => if k x || !(k y) then x :: y :: ys else y :: insertKeyDesc k x ys

/-- Python `sorted(l, key=k, reverse=True)` for a boolean key `k`,
embedded as a stable insertion sort. -/
def pySortedKeyDescBool {α : Type} (k : α → Bool) (l : List α) : List α :=
  l.foldr (insertKeyDesc k) []

theorem insertKeyDesc_false {α : Type} (k : α → Bool) (x : α)
    (hx : k x = false) :
    ∀ A B, (∀ y ∈ A, k y = true) → (∀ y ∈ B, k y = false) →
      insertKeyDesc k x (A ++ B) = A ++ x :: B := by
  intro A
  induction A with
  | nil =>
    intro B _ hB
    cases B with
    | nil => rfl
    | cons b bs =>
      have hb : k b = false := hB b (by simp)
      simp [insertKeyDesc, hx, hb]
  | cons a A ih =>
    intro B hA hB
    have ha : k a = true := hA a (by simp)
    have hrec := ih B (fun y hy => hA y (List.mem_cons_of_mem a hy)) hB
    simp [insertKeyDesc, hx, ha, hrec]

theorem pySortedKeyDescBool_eq_partition {α : Type} (k : α → Bool)
    (l : List α) :
    pySortedKeyDescBool k l = l.filter k ++ l.filter (fun a => !(k a)) := by
  induction l with
  | nil => rfl
  | cons x l ih =>
    simp only [pySortedKeyDescBool, List.foldr_cons] at ih ⊢
    rw [ih]
    by_cases hx : k x = true
    · have : insertKeyDesc k x (l.filter k ++ l.filter (fun a => !(k a)))
          = x :: (l.filter k ++ l.filter (fun a => !(k a))) := by
        cases hFK : l.filter k ++ l.filter (fun a => !(k a)) with
        | nil => simp [insertKeyDesc]
        | cons y ys => simp [insertKeyDesc, hx]
      rw [this]
      simp [List.filter_cons, hx]
    · have hx' : k x = false := by simp at hx; exact hx
      rw [insertKeyDesc_false k x hx' (l.filter k) (l.filter (fun a => !(k a)))
        (fun y hy => (List.mem_filter.mp hy).2)
        (fun y hy => by simpa using (List.mem_filter.mp hy).2)]
      simp [List.filter_cons, hx']

/-- The email fix-up of `validate_and_enhance` applied to the
personal-info dictionary (after the `{}`-insertion for an absent key):
a truthy email containing no at-sign is replaced by `None`. -/
def enhancedPersonal (d : InData) : InPersonal :=
  let pi0 := d.personal_info.getD {}
  { pi0 with
    email := match pi0.email with
      | some em => if em ≠ [] ∧ strContains em [atC] = false then none else some em
      | none => none }

/-- The experience list after the sorting step of `validate_and_enhance`
(sorted only when the key is present and the list truthy). -/
def enhancedExperience (d : InData) : Option (List InExp) :=
  d.experience.map (fun l => if l = [] then l else pySortedKeyDescBool endDateIsPresent l)

/-- Embedding of `ResumeExtractor.validate_and_enhance`: insert an empty
`personal_info` when absent, nullify an at-sign-less email, sort the
experience list, then validate through the pydantic `ResumeData` model.
`none` models a raised `ValidationError`. -/
def validate_and_enhance (d : InData) : Option ResumeData :=
  match validatePersonal (enhancedPersonal d),
        validateList validateExp ((enhancedExperience d).getD []),
        validateList validateEdu (d.education.getD []) with
  | some p, some es, some eds =>
    some { personal_info := p, summary := d.summary,
           experience := es, education := eds,
           skills := skillsOfIn (d.skills.getD {}),
           certifications := d.certifications.getD [],
           projects := d.projects.getD [],
           achievements := d.achievements.getD [] }
  | _, _, _ => none

/-! ## `extract_resume` and the `POST /extract` endpoint -/

def insufficientTextMsg : Str :=
  ("Could not extract sufficient text from PDF".toList)

def onlyPdfMsg : Str := ("Only PDF files are supported".toList)

def pdfSuffix : Str := (".pdf".toList)

/-- Embedding of `ResumeExtractor.extract_resume` given the text
extracted from the PDF; `laterSteps` abstracts the LLM extraction and
validation steps, which may themselves raise (`Except.error` carries the
message string of the exception). -/
def extract_resume (text : Str) (laterSteps : Except Str ResumeData) :
    Except Str ResumeData :=
  if (pyStrip text).length < 100 then Except.error insufficientTextMsg
  else laterSteps

/-- HTTP outcomes of the endpoint: an `HTTPException` with status and
detail, or a JSON response carrying the validated record. -/
inductive HttpResult where
  | httpError (status : ℕ) (detail : Str)
  | jsonOk (body : ResumeData)
deriving DecidableEq

/-- The `POST /extract` endpoint: reject non-`.pdf` filenames with 400,
turn any processing exception into a 500 carrying its message, and
otherwise return the record as JSON. -/
def extract_endpoint (filename : Str) (processing : Except Str ResumeData) :
    HttpResult :=
  if strEndsWith filename pdfSuffix = false then
    HttpResult.httpError 400 onlyPdfMsg
  else
    match processing with
    | Except.error msg => HttpResult.httpError 500 msg
    | Except.ok rd => HttpResult.jsonOk rd

/-! ## `ResumeEnhancer` (advanced_features.py)

The analytics functions receive plain dictionaries (`.dict()` output or
hand-built); they are embedded with `Option`-valued fields so that a
missing key, read through `.get`, is distinguishable. `datetime.now()`
is embedded as an explicit `now` parameter, and the date parsing
delegated to `dateutil` inside `_parse_date` as a parameter `pd`. -/

/-- The year/month of a Python `datetime` (the only components
`calculate_experience_years` reads). -/
structure PyDate where
  year : ℤ
  month : ℤ
deriving DecidableEq

structure ExpDict where
  company : Option Str := none
  position : Option Str := none
  start_date : Option Str := none
  end_date : Option Str := none
  responsibilities : Option (List Str) := none
deriving DecidableEq

structure EduDict where
  institution : Option Str := none
  degree : Option Str := none
deriving DecidableEq

structure PersonalDict where
  name : Option Str := none
  email : Option Str := none
  phone : Option Str := none
  location : Option Str := none
deriving DecidableEq

structure SkillsDict where
  technical : Option (List Str) := none
  soft : Option (List Str) := none
  languages : Option (List Str) := none
  tools : Option (List Str) := none
deriving DecidableEq

structure ResumeDict where
  personal_info : Option PersonalDict := none
  experience : Option (List ExpDict) := none
  education : Option (List EduDict) := none
  skills : Option SkillsDict := none
deriving DecidableEq

/-- Python truthiness of an optional string value. -/
def truthyS : Option Str → Bool
  | none => false
  | some s => !s.isEmpty

/-- Embedding of the `_parse_date` method with everything after its
initial falsy-guard (the dateutil call and the regex fallbacks)
abstracted as `pd`. -/
def parse_date (pd : Str → Option PyDate) (s : Str) : Option PyDate :=
  if s.isEmpty then none else pd s

/-- The months contributed by one experience entry in
`calculate_experience_years` (0 when a date is missing or unparseable;
a present-like end date is read as `now`). -/
def entryMonths (pd : Str → Option PyDate) (now : PyDate) (e : ExpDict) : ℤ :=
  match e.start_date with
  | none => 0
  | some sd =>
    if sd.isEmpty then 0
    else
      match parse_date pd sd with
      | none => 0
      | some start =>
        let endOpt : Option PyDate :=
          match e.end_date with
          | none => none
          | some ed =>
            if ed ≠ [] ∧ lowerStr ed ∈ presentWordList then some now
            else parse_date pd ed
        match endOpt with
        | none => 0
        | some en =>
          max 0 ((en.year - start.year) * 12 + (en.month - start.month))

/-- Embedding of `ResumeEnhancer.calculate_experience_years`. -/
def calculate_experience_years (pd : Str → Option PyDate) (now : PyDate)
    (experience : List ExpDict) : ℚ :=
  let total_months : ℤ := experience.foldl (fun acc e => acc + entryMonths pd now e) 0
  pyRound1 ((total_months : ℚ) / 12)

/-! ### `calculate_ats_score` -/

def actionVerbs : List Str :=
  [("managed".toList), ("led".toList), ("developed".toList),
   ("created".toList), ("implemented".toList), ("achieved".toList)]

/-- The quantifiable-results regex search of `calculate_ats_score`: it
succeeds iff some digit is immediately followed by a percent or plus
sign, or some dollar sign is immediately followed by a digit. -/
def hasQuantResult : Str → Bool
  | [] => false
  | [_] => false
  | a :: b :: rest =>
    (isDigitCh a && (b == pctC || b == plusC)) || (a == dollarC && isDigitCh b)
      || hasQuantResult (b :: rest)

def spaceJoin (parts : List Str) : Str := List.intercalate [spC] parts

def personalInfoScore (d : ResumeDict) : ℕ :=
  let pi := d.personal_info.getD {}
  (if truthyS pi.name then 5 else 0) + (if truthyS pi.email then 5 else 0)
    + (if truthyS pi.phone then 5 else 0) + (if truthyS pi.location then 5 else 0)

def experienceScore (d : ResumeDict) : ℕ :=
  let experience := d.experience.getD []
  if experience.isEmpty then 0
  else
    10 + (if experience.all (fun e => truthyS e.start_date) then 10 else 0)
      + (if experience.all (fun e => 2 ≤ (e.responsibilities.getD []).length) then 10 else 0)

def educationScore (d : ResumeDict) : ℕ :=
  let education := d.education.getD []
  if education.isEmpty then 0
  else
    10 + (if education.all (fun e => truthyS e.degree && truthyS e.institution) then 5 else 0)

def totalSkillCount (d : ResumeDict) : ℕ :=
  let sk := d.skills.getD {}
  (sk.technical.getD []).length + (sk.soft.getD []).length
    + (sk.languages.getD []).length + (sk.tools.getD []).length

def skillsScore (d : ResumeDict) : ℕ :=
  (if 5 ≤ totalSkillCount d then 10 else 0) + (if 10 ≤ totalSkillCount d then 10 else 0)

def expText (d : ResumeDict) : Str :=
  lowerStr (spaceJoin ((d.experience.getD []).map
    (fun e => spaceJoin (e.responsibilities.getD []))))

def keywordScore (d : ResumeDict) : ℕ :=
  (if actionVerbs.any (fun v => strContains (expText d) v) then 10 else 0)
    + (if hasQuantResult (expText d) then 5 else 0)

/-- The dictionary returned by `calculate_ats_score`. -/
structure AtsResult where
  total_score : ℕ
  max_score : ℕ
  percentage : ℚ
  breakdown_personal_info : ℕ
  breakdown_experience : ℕ
  breakdown_education : ℕ
  breakdown_skills : ℕ
  breakdown_keywords : ℕ
deriving DecidableEq

/-- Embedding of `ResumeEnhancer.calculate_ats_score`. -/
def calculate_ats_score (d : ResumeDict) : AtsResult :=
  let p := personalInfoScore d
  let e := experienceScore d
  let ed := educationScore d
  let sk := skillsScore d
  let kw := keywordScore d
  let score := p + e + ed + sk + kw
  { total_score := score, max_score := 100,
    percentage := pyRound2 ((score : ℚ) / 100 * 100),
    breakdown_personal_info := p, breakdown_experience := e,
    breakdown_education := ed, breakdown_skills := sk,
    breakdown_keywords := kw }

/-! ### `calculate_skill_match` -/

/-- The resume skill pool of `calculate_skill_match`: the lowercased
entries of the four skill categories together with the word tokens of
the lowercased responsibilities that are longer than 2 characters and
not stop words (`tok` abstracts `nltk.word_tokenize`, `stopWords` the
stop-word set held by the instance). -/
def resumeSkillPool (tok : Str → List Str) (stopWords : List Str)
    (d : ResumeDict) : List Str :=
  let sk := d.skills.getD {}
  (sk.technical.getD []).map lowerStr ++ (sk.soft.getD []).map lowerStr
    ++ (sk.languages.getD []).map lowerStr ++ (sk.tools.getD []).map lowerStr
    ++ ((d.experience.getD []).map (fun e =>
          ((e.responsibilities.getD []).map (fun r =>
            (tok (lowerStr r)).filter
              (fun w => decide (2 < w.length) && !stopWords.contains w))).flatten)).flatten

/-- Embedding of `ResumeEnhancer.calculate_skill_match`. -/
def calculate_skill_match (tok : Str → List Str) (stopWords : List Str)
    (d : ResumeDict) (job_requirements : List Str) : ℚ :=
  let pool := resumeSkillPool tok stopWords d
  let matchCount : ℕ := (job_requirements.map lowerStr).countP
    (fun req => pool.any (fun skill => strContains skill req))
  if job_requirements.isEmpty then 0
  else pyRound2 ((matchCount : ℚ) / (job_requirements.length : ℚ) * 100)

/-! ### `analyze_career_progression` -/

def promotionWords : List Str :=
  [("senior".toList), ("lead".toList), ("manager".toList),
   ("director".toList), ("vp".toList), ("chief".toList)]

def strongProgressionMsg : Str := ("Strong upward progression".toList)
def steadyGrowthMsg : Str := ("Steady career growth".toList)
def lateralMsg : Str := ("Lateral movement or early career".toList)
def noExperienceMsg : Str := ("No experience data".toList)

/-- The score added for the adjacent position pair `(current, previous)`
with their companies, summed over the six promotion indicators. -/
def pairScore (current previous : Str) (sameCompany : Bool) : ℕ :=
  (promotionWords.map (fun ind =>
    if strContains current ind then
      if !strContains previous ind then 2
      else if sameCompany then 1 else 0
    else 0)).sum

structure CareerResult where
  progression_type : Str
  progression_score : ℕ
  total_positions : ℕ
  unique_companies : ℕ
  no_experience : Bool
deriving DecidableEq

def adjacentPairScores : List Str → List Str → List ℕ
  | p1 :: p2 :: ps, c1 :: c2 :: cs =>
    pairScore (lowerStr p1) (lowerStr p2) (c1 == c2)
      :: adjacentPairScores (p2 :: ps) (c2 :: cs)
  | _, _ => []

/-- Embedding of `ResumeEnhancer.analyze_career_progression`. -/
def analyze_career_progression (experience : List ExpDict) : CareerResult :=
  if experience.isEmpty then
    { progression_type := noExperienceMsg, progression_score := 0,
      total_positions := 0, unique_companies := 0, no_experience := true }
  else
    let positions := experience.map (fun e => e.position.getD [])
    let companies := experience.map (fun e => e.company.getD [])
    let score := (adjacentPairScores positions companies).sum
    { progression_type :=
        if 4 ≤ score then strongProgressionMsg
        else if 2 ≤ score then steadyGrowthMsg
        else lateralMsg,
      progression_score := score,
      total_positions := positions.length,
      unique_companies := companies.dedup.length,
      no_experience := false }

/-! ### `compare_resumes` -/

/-- The lowercased skill set of a resume (the union of the four skill
categories), as a list with the same membership as the Python set. -/
def skillSetOf (d : ResumeDict) : List Str :=
  let sk := d.skills.getD {}
  (sk.technical.getD []).map lowerStr ++ (sk.soft.getD []).map lowerStr
    ++ (sk.languages.getD []).map lowerStr ++ (sk.tools.getD []).map lowerStr

structure Comparison where
  experience_years_resume1 : ℚ
  experience_years_resume2 : ℚ
  skills_count_resume1 : ℕ
  skills_count_resume2 : ℕ
  ats_resume1 : AtsResult
  ats_resume2 : AtsResult
  resume1_only : List Str
  resume2_only : List Str
  common : List Str
deriving DecidableEq

/-- Embedding of `ResumeEnhancer.compare_resumes` (the `unique_skills`
lists are determined up to the unspecified iteration order of Python
sets; the embedding fixes first-occurrence order). -/
def compare_resumes (pd : Str → Option PyDate) (now : PyDate)
    (r1 r2 : ResumeDict) : Comparison :=
  { experience_years_resume1 := calculate_experience_years pd now (r1.experience.getD []),
    experience_years_resume2 := calculate_experience_years pd now (r2.experience.getD []),
    skills_count_resume1 := totalSkillCount r1,
    skills_count_resume2 := totalSkillCount r2,
    ats_resume1 := calculate_ats_score r1,
    ats_resume2 := calculate_ats_score r2,
    resume1_only := (skillSetOf r1).filter (fun s => decide (s ∉ skillSetOf r2)),
    resume2_only := (skillSetOf r2).filter (fun s => decide (s ∉ skillSetOf r1)),
    common := (skillSetOf r1).filter (fun s => decide (s ∈ skillSetOf r2)) }

/-! ## `extract_text_from_pdf` and `clean_text` -/

/-- A PDF page: its embedded text layer (`page.get_text()`) and the OCR
result for its rendered image (lines of recognized word texts). -/
structure Page where
  text : Str
  ocr : List (List Str)

/-- The text appended by the OCR fallback: for each truthy line, every
recognized word followed by a space, then a newline. -/
def ocrAppendText : List (List Str) → Str
  | [] => []
  | line :: rest =>
    (if line.isEmpty then [] else (line.map (fun w => w ++ [spC])).flatten ++ [nlC])
      ++ ocrAppendText rest

/-- The first substitution of `clean_text`: collapse each maximal
whitespace run to a single space. -/
def squeezeWs : Str → Str
  | [] => []
  | c :: rest =>
    if isPySpace c then spC :: squeezeWs (rest.dropWhile isPySpace)
    else c :: squeezeWs rest
termination_by s => s.length
decreasing_by
  · simp only [List.length_cons]
    have := length_dropWhile_le_self isPySpace rest
    omega
  · simp [List.length_cons]

/-- The suffix strictly after the last newline of a string, when the
string contains one. -/
def splitAfterLastNl : Str → Option Str
  | [] => none
  | c :: rest =>
    match splitAfterLastNl rest with
    | some suf => some suf
    | none => if c == nlC then some rest else none

theorem splitAfterLastNl_length_lt :
    ∀ s suf, splitAfterLastNl s = some suf → suf.length < s.length := by
  intro s
  induction s with
  | nil => intro suf h; simp [splitAfterLastNl] at h
  | cons c rest ih =>
    intro suf h
    simp only [splitAfterLastNl] at h
    cases hrec : splitAfterLastNl rest with
    | some suf2 =>
      rw [hrec] at h
      have := ih suf2 hrec
      simp only [Option.some.injEq] at h
      subst h
      simp only [List.length_cons]
      omega
    | none =>
      rw [hrec] at h
      by_cases hc : (c == nlC) = true
      · simp only [hc, if_true, Option.some.injEq] at h
        subst h
        simp [List.length_cons]
      · simp [hc] at h

/-- The second substitution of `clean_text`: each newline followed by a
whitespace run that contains another newline is collapsed to a pair of
newlines, with the match ending at the last newline of the run. -/
def collapseNlRuns : Str → Str
  | [] => []
  | c :: rest =>
    if c == nlC then
      match h : splitAfterLastNl (rest.takeWhile isPySpace) with
      | some suf => nlC :: nlC :: collapseNlRuns (suf ++ rest.dropWhile isPySpace)
      | none => c :: collapseNlRuns rest
    else c :: collapseNlRuns rest
termination_by s => s.length
decreasing_by
  · simp only [List.length_cons, List.length_append]
    have h1 := splitAfterLastNl_length_lt (rest.takeWhile isPySpace) suf h
    have h2 := congrArg List.length
      (List.takeWhile_append_dropWhile (p := isPySpace) (l := rest))
    simp only [List.length_append] at h2
    omega
  · simp [List.length_cons]
  · simp [List.length_cons]

/-- The camel-case substitution of `clean_text`: insert a space between
a lowercase letter and a following uppercase letter. -/
def addCamelSpace : Str → Str
  | [] => []
  | [c] => [c]
  | a :: b :: rest =>
    if isLowerAlpha a && isUpperAlpha b then a :: spC :: addCamelSpace (b :: rest)
    else a :: addCamelSpace (b :: rest)

/-- Embedding of `ResumeExtractor.clean_text`. -/
def clean_text (text : Str) : Str :=
  pyStrip (addCamelSpace
    ((collapseNlRuns (squeezeWs text)).map (fun c => if c == pipeC then upperIC else c)))

/-- The text of one page in `extract_text_from_pdf`: the embedded text
layer, extended with the OCR fallback exactly when the stripped layer
has fewer than 50 characters. -/
def pageText (p : Page) : Str :=
  if (pyStrip p.text).length < 50 then p.text ++ ocrAppendText p.ocr else p.text

/-- Embedding of `ResumeExtractor.extract_text_from_pdf`: pages
processed in order, the text of each page followed by a newline, the
whole cleaned. -/
def extract_text_from_pdf (pages : List Page) : Str :=
  clean_text (pages.foldl (fun acc p => acc ++ pageText p ++ [nlC]) [])

/-! ## Helper lemmas -/

theorem foldl_append_nl_eq_flatten (pages : List Page) :
    ∀ acc : Str, pages.foldl (fun acc p => acc ++ pageText p ++ [nlC]) acc
      = acc ++ (pages.map (fun p => pageText p ++ [nlC])).flatten := by
  induction pages with
  | nil => intro acc; simp
  | cons p ps ih =>
    intro acc
    rw [List.foldl_cons]
    rw [ih (acc ++ pageText p ++ [nlC])]
    simp [List.append_assoc]

theorem foldl_add_eq_sum {α : Type} (f : α → ℤ) (l : List α) :
    ∀ acc : ℤ, l.foldl (fun a e => a + f e) acc = acc + (l.map f).sum := by
  induction l with
  | nil => intro acc; simp
  | cons x xs ih => intro acc; simp [ih]; ring

theorem entryMonths_nonneg (pd : Str → Option PyDate) (now : PyDate)
    (e : ExpDict) : 0 ≤ entryMonths pd now e := by
  unfold entryMonths
  rcases e.start_date with _ | sd
  · simp
  · simp only []
    split
    · simp
    · rcases parse_date pd sd with _ | st
      · simp
      · simp only []
        split
        · simp
        · exact le_max_left 0 _

/-- The per-entry contribution as the claim states it: an entry whose
start date parses and whose end date is present-like (then read as the
current date) or parses contributes `max 0` of the month difference;
every other entry contributes 0. -/
def claimEntryMonths (pd : Str → Option PyDate) (now : PyDate) (e : ExpDict) : ℤ :=
  match e.start_date.bind (parse_date pd) with
  | none => 0
  | some start =>
    if truthyS e.end_date ∧ lowerStr (e.end_date.getD []) ∈ presentWordList then
      max 0 ((now.year - start.year) * 12 + (now.month - start.month))
    else
      match e.end_date.bind (parse_date pd) with
      | none => 0
      | some en => max 0 ((en.year - start.year) * 12 + (en.month - start.month))

theorem entryMonths_eq_claim (pd : Str → Option PyDate) (now : PyDate)
    (e : ExpDict) : entryMonths pd now e = claimEntryMonths pd now e := by
  rcases e with ⟨co, po, sdq, edq, re⟩
  rcases sdq with _ | sd
  · rfl
  · by_cases hsd : sd = []
    · subst hsd; rfl
    · have hne : (List.isEmpty sd) = false := by simp [hsd]
      rcases hps : pd sd with _ | st
      · simp [entryMonths, claimEntryMonths, parse_date, hne, hsd, hps]
      · rcases edq with _ | ed
        · simp [entryMonths, claimEntryMonths, parse_date, hne, hsd, hps, truthyS]
        · by_cases hed : ed = []
          · subst hed
            simp [entryMonths, claimEntryMonths, parse_date, hne, hsd, hps, truthyS]
          · have hedne : (List.isEmpty ed) = false := by simp [hed]
            by_cases hpr : lowerStr ed ∈ presentWordList
            · simp [entryMonths, claimEntryMonths, parse_date, hne, hsd, hps,
                truthyS, hedne, hed, hpr]
            · simp [entryMonths, claimEntryMonths, parse_date, hne, hsd, hps,
                truthyS, hedne, hed, hpr]

theorem validateList_isSome_of {α β : Type} (f : α → Option β) :
    ∀ l : List α, (∀ x ∈ l, (f x).isSome) → ∃ ys, validateList f l = some ys := by
  intro l
  induction l with
  | nil => intro _; exact ⟨[], rfl⟩
  | cons x xs ih =>
    intro h
    obtain ⟨y, hy⟩ := Option.isSome_iff_exists.mp (h x (by simp))
    obtain ⟨ys, hys⟩ := ih (fun z hz => h z (by simp [hz]))
    exact ⟨y :: ys, by simp [validateList, hy, hys]⟩

theorem validateList_none_of_mem {α β : Type} (f : α → Option β) :
    ∀ l : List α, (∃ x ∈ l, f x = none) → validateList f l = none := by
  intro l
  induction l with
  | nil => rintro ⟨x, hx, _⟩; simp at hx
  | cons a xs ih =>
    rintro ⟨x, hx, hfx⟩
    rcases List.mem_cons.mp hx with h | h
    · subst h; simp [validateList, hfx]
    · have := ih ⟨x, h, hfx⟩
      simp only [validateList, this]
      cases f a <;> rfl

/-! ## Claim theorems -/

/-- C3: for every input dictionary, `calculate_ats_score` returns a
total equal to the sum of the five breakdown components, a max score of
100, a percentage equal to `round(total / 100 * 100, 2)` and hence
numerically equal to the total, and a total between 0 and 100. -/
theorem C3_ats_score_consistency (d : ResumeDict) :
    (calculate_ats_score d).total_score
        = (calculate_ats_score d).breakdown_personal_info
          + (calculate_ats_score d).breakdown_experience
          + (calculate_ats_score d).breakdown_education
          + (calculate_ats_score d).breakdown_skills
          + (calculate_ats_score d).breakdown_keywords
      ∧ (calculate_ats_score d).max_score = 100
      ∧ (calculate_ats_score d).percentage
          = pyRound2 (((calculate_ats_score d).total_score : ℚ) / 100 * 100)
      ∧ (calculate_ats_score d).percentage = ((calculate_ats_score d).total_score : ℚ)
      ∧ (calculate_ats_score d).total_score ≤ 100 := by
  have hps : personalInfoScore d ≤ 20 := by
    simp only [personalInfoScore]
    split_ifs <;> omega
  have hes : experienceScore d ≤ 30 := by
    simp only [experienceScore]
    split_ifs <;> omega
  have hed : educationScore d ≤ 15 := by
    simp only [educationScore]
    split_ifs <;> omega
  have hsk : skillsScore d ≤ 20 := by
    simp only [skillsScore]
    split_ifs <;> omega
  have hkw : keywordScore d ≤ 15 := by
    simp only [keywordScore]
    split_ifs <;> omega
  have hperc : ∀ s : ℕ, pyRound2 ((s : ℚ) / 100 * 100) = (s : ℚ) := by
    intro s
    rw [div_mul_cancel₀ _ (by norm_num : (100 : ℚ) ≠ 0)]
    exact pyRound2_natCast s
  refine ⟨rfl, rfl, rfl, ?_, ?_⟩
  · show pyRound2 _ = _
    exact hperc _
  · show personalInfoScore d + experienceScore d + educationScore d
      + skillsScore d + keywordScore d ≤ 100
    omega

/-- C4: `extract_text_from_pdf` is the cleaned concatenation, in page
order, of the text layer of each page — extended by the OCR fallback text
exactly when the stripped text layer has fewer than 50 characters —
followed by a newline. -/
theorem C4_pdf_extraction_pipeline (pages : List Page) :
    extract_text_from_pdf pages
      = clean_text ((pages.map (fun p =>
          (if (pyStrip p.text).length < 50 then p.text ++ ocrAppendText p.ocr
           else p.text) ++ [nlC])).flatten) := by
  unfold extract_text_from_pdf
  rw [foldl_append_nl_eq_flatten pages []]
  simp [pageText]

/-- C5: `calculate_experience_years` returns `round(total_months/12, 1)`
where `total_months` sums, over entries whose start date parses and
whose end date is present-like (then taken as the current date) or
parses, the clamped month difference `max 0 ((Δyear)*12 + Δmonth)`;
other entries contribute 0 and the result is nonnegative. -/
theorem C5_experience_years_formula (pd : Str → Option PyDate) (now : PyDate)
    (experience : List ExpDict) :
    calculate_experience_years pd now experience
        = pyRound1 ((((experience.map (claimEntryMonths pd now)).sum : ℤ) : ℚ) / 12)
      ∧ 0 ≤ calculate_experience_years pd now experience := by
  have hmap : experience.map (fun e => entryMonths pd now e)
      = experience.map (claimEntryMonths pd now) := by
    apply List.map_congr_left
    intro e _
    exact entryMonths_eq_claim pd now e
  constructor
  · unfold calculate_experience_years
    rw [foldl_add_eq_sum, zero_add, hmap]
  · unfold calculate_experience_years
    rw [foldl_add_eq_sum, zero_add]
    apply pyRound1_nonneg
    apply div_nonneg _ (by norm_num : (0:ℚ) ≤ 12)
    have : 0 ≤ (experience.map (fun e => entryMonths pd now e)).sum := by
      apply List.sum_nonneg
      intro x hx
      obtain ⟨e, _, rfl⟩ := List.mem_map.mp hx
      exact entryMonths_nonneg pd now e
    exact_mod_cast this

/-- C8: `calculate_skill_match` returns 0 on an empty requirement list
and otherwise `round(m / n * 100, 2)` where `m` counts the lowercased
requirements occurring as a substring of some skill of the resume
pool; the result lies in the interval from 0 to 100. -/
theorem C8_skill_match_formula (tok : Str → List Str) (stopWords : List Str)
    (d : ResumeDict) (job_requirements : List Str) :
    calculate_skill_match tok stopWords d job_requirements
        = (if job_requirements.isEmpty then 0
           else pyRound2
             ((((job_requirements.map lowerStr).countP
                 (fun req => (resumeSkillPool tok stopWords d).any
                   (fun skill => strContains skill req)) : ℕ) : ℚ)
               / (job_requirements.length : ℚ) * 100))
      ∧ 0 ≤ calculate_skill_match tok stopWords d job_requirements
      ∧ calculate_skill_match tok stopWords d job_requirements ≤ 100 := by
  refine ⟨rfl, ?_, ?_⟩
  · unfold calculate_skill_match
    split
    · norm_num
    · apply pyRound2_nonneg
      positivity
  · unfold calculate_skill_match
    split
    · norm_num
    · rename_i hne
      apply pyRound2_le_100
      have hlen : 0 < job_requirements.length := by
        cases job_requirements with
        | nil => simp at hne
        | cons a l => simp
      have hcount : (job_requirements.map lowerStr).countP
          (fun req => (resumeSkillPool tok stopWords d).any
            (fun skill => strContains skill req)) ≤ job_requirements.length := by
        calc (job_requirements.map lowerStr).countP _
            ≤ (job_requirements.map lowerStr).length := List.countP_le_length _
          _ = job_requirements.length := List.length_map _ _
      have hq : ((job_requirements.map lowerStr).countP
            (fun req => (resumeSkillPool tok stopWords d).any
              (fun skill => strContains skill req)) : ℚ)
          / (job_requirements.length : ℚ) ≤ 1 := by
        rw [div_le_one (by exact_mod_cast hlen)]
        exact_mod_cast hcount
      nlinarith

/-- The relational specification of the skill comparison performed by
`compare_resumes`:
`common` is the intersection of the two lowercased skill sets,
`resume1_only`/`resume2_only` the set differences, the three are
pairwise disjoint and cover the union; swapping the arguments swaps
the resume1/resume2 roles of every field. -/
def comparisonSpec (pd : Str → Option PyDate) (now : PyDate)
    (r1 r2 : ResumeDict) : Prop :=
  (∀ s, s ∈ (compare_resumes pd now r1 r2).common
      ↔ s ∈ skillSetOf r1 ∧ s ∈ skillSetOf r2)
    ∧ (∀ s, s ∈ (compare_resumes pd now r1 r2).resume1_only
        ↔ s ∈ skillSetOf r1 ∧ s ∉ skillSetOf r2)
    ∧ (∀ s, s ∈ (compare_resumes pd now r1 r2).resume2_only
        ↔ s ∈ skillSetOf r2 ∧ s ∉ skillSetOf r1)
    ∧ (∀ s, ¬ (s ∈ (compare_resumes pd now r1 r2).resume1_only
        ∧ s ∈ (compare_resumes pd now r1 r2).resume2_only))
    ∧ (∀ s, ¬ (s ∈ (compare_resumes pd now r1 r2).resume1_only
        ∧ s ∈ (compare_resumes pd now r1 r2).common))
    ∧ (∀ s, ¬ (s ∈ (compare_resumes pd now r1 r2).resume2_only
        ∧ s ∈ (compare_resumes pd now r1 r2).common))
    ∧ (∀ s, (s ∈ (compare_resumes pd now r1 r2).resume1_only
          ∨ s ∈ (compare_resumes pd now r1 r2).resume2_only
          ∨ s ∈ (compare_resumes pd now r1 r2).common)
        ↔ (s ∈ skillSetOf r1 ∨ s ∈ skillSetOf r2))
    ∧ (compare_resumes pd now r2 r1).experience_years_resume1
        = (compare_resumes pd now r1 r2).experience_years_resume2
    ∧ (compare_resumes pd now r2 r1).experience_years_resume2
        = (compare_resumes pd now r1 r2).experience_years_resume1
    ∧ (compare_resumes pd now r2 r1).skills_count_resume1
        = (compare_resumes pd now r1 r2).skills_count_resume2
    ∧ (compare_resumes pd now r2 r1).skills_count_resume2
        = (compare_resumes pd now r1 r2).skills_count_resume1
    ∧ (compare_resumes pd now r2 r1).ats_resume1
        = (compare_resumes pd now r1 r2).ats_resume2
    ∧ (compare_resumes pd now r2 r1).ats_resume2
        = (compare_resumes pd now r1 r2).ats_resume1
    ∧ (∀ s, s ∈ (compare_resumes pd now r2 r1).resume1_only
        ↔ s ∈ (compare_resumes pd now r1 r2).resume2_only)
    ∧ (∀ s, s ∈ (compare_resumes pd now r2 r1).resume2_only
        ↔ s ∈ (compare_resumes pd now r1 r2).resume1_only)
    ∧ (∀ s, s ∈ (compare_resumes pd now r2 r1).common
        ↔ s ∈ (compare_resumes pd now r1 r2).common)

/-- C10: the `unique_skills` part of `compare_resumes` computes the set
intersection and differences of the two lowercased skill sets, and the
comparison is symmetric under swapping its arguments. -/
theorem C10_compare_resumes_relational (pd : Str → Option PyDate)
    (now : PyDate) (r1 r2 : ResumeDict) : comparisonSpec pd now r1 r2 := by
  unfold comparisonSpec
  refine ⟨?_, ?_, ?_, ?_, ?_, ?_, ?_, rfl, rfl, rfl, rfl, rfl, rfl, ?_, ?_, ?_⟩
  all_goals intro s
  all_goals simp only [compare_resumes, List.mem_filter, decide_eq_true_eq]
  all_goals tauto

/-- Concrete instances for the C10 witness. -/
def cmpSkillsA : SkillsDict :=
  { technical := some [("Python".toList), ("SQL".toList)] }

def cmpSkillsB : SkillsDict :=
  { technical := some [("python".toList)], soft := some [("Teamwork".toList)] }

def cmpR1 : ResumeDict := { skills := some cmpSkillsA }

def cmpR2 : ResumeDict := { skills := some cmpSkillsB }

def noParse : Str → Option PyDate := fun _ => none

def date2024 : PyDate := { year := 2024, month := 1 }

theorem C10_compare_resumes_relational_witness :
    comparisonSpec noParse date2024 cmpR1 cmpR2 :=
  C10_compare_resumes_relational noParse date2024 cmpR1 cmpR2

/-- C1: `extract_with_llm` reads at most `max_retries` responses (its
result is unchanged by any modification of later responses); when the
cleaned response of every attempt fails to parse and the repaired last
cleaned response also fails, it returns — without raising — the
placeholder record whose `personal_info.name` is `Error parsing resume`
and whose experience, education and four skill lists are empty. -/
theorem C1_llm_retry_fallback (parse : Str → Option JsonVal)
    (responses : ℕ → Str) (max_retries : ℕ)
    (hfail : ∀ i, i < max_retries → parse (clean_json_response (responses i)) = none)
    (hfix : parse (fix_transform (clean_json_response (responses (max_retries - 1)))) = none)
    (hpos : 0 < max_retries) :
    (∀ responses' : ℕ → Str, (∀ i, i < max_retries → responses i = responses' i) →
        extract_with_llm parse responses max_retries
          = extract_with_llm parse responses' max_retries)
      ∧ extract_with_llm parse responses max_retries = some error_placeholder
      ∧ jsonLookup error_placeholder keyPersonalInfo
          = some (JsonVal.jobj [(keyName, JsonVal.jstr errName)])
      ∧ jsonLookup error_placeholder keyExperience = some (JsonVal.jarr [])
      ∧ jsonLookup error_placeholder keyEducation = some (JsonVal.jarr [])
      ∧ jsonLookup error_placeholder keySkills
          = some (JsonVal.jobj
              [ (keyTechnical, JsonVal.jarr []), (keySoft, JsonVal.jarr []),
                (keyLanguages, JsonVal.jarr []), (keyTools, JsonVal.jarr []) ]) := by
  refine ⟨?_, ?_, rfl, rfl, rfl, rfl⟩
  · intro responses' hagree
    exact extract_llm_go_congr parse responses responses' max_retries max_retries 0
      (by omega) hagree
  · unfold extract_with_llm
    rw [extract_llm_go_all_fail parse responses max_retries hfail max_retries 0
      (by omega) hpos]
    unfold fix_json_errors
    rw [hfix]

def constNoneParse : Str → Option JsonVal := fun _ => none

def emptyResponses : ℕ → Str := fun _ => []

theorem C1_llm_retry_fallback_witness :
    (∀ i, i < 3 → constNoneParse (clean_json_response (emptyResponses i)) = none)
      ∧ constNoneParse (fix_transform (clean_json_response (emptyResponses (3 - 1)))) = none
      ∧ 0 < 3
      ∧ extract_with_llm constNoneParse emptyResponses 3 = some error_placeholder :=
  ⟨fun _ _ => rfl, rfl, by decide,
    (C1_llm_retry_fallback constNoneParse emptyResponses 3
      (fun _ _ => rfl) rfl (by decide)).2.1⟩

/-- C2: the `POST /extract` endpoint returns 400 with detail
`Only PDF files are supported` for filenames not ending in `.pdf`;
when processing raises — in particular the `ValueError`
`Could not extract sufficient text from PDF` raised by
`extract_resume` on fewer than 100 stripped characters — it returns 500
carrying the message of the exception; otherwise it returns the record as
JSON. -/
theorem C2_extract_endpoint_behaviour (filename text : Str)
    (laterSteps processing : Except Str ResumeData) :
    (strEndsWith filename pdfSuffix = false →
        extract_endpoint filename processing = HttpResult.httpError 400 onlyPdfMsg)
      ∧ (strEndsWith filename pdfSuffix = true →
          ((pyStrip text).length < 100 →
              extract_endpoint filename (extract_resume text laterSteps)
                = HttpResult.httpError 500 insufficientTextMsg)
            ∧ (∀ msg, processing = Except.error msg →
                extract_endpoint filename processing = HttpResult.httpError 500 msg)
            ∧ (∀ rd, processing = Except.ok rd →
                extract_endpoint filename processing = HttpResult.jsonOk rd)) := by
  constructor
  · intro hbad
    unfold extract_endpoint
    rw [hbad]
    simp
  · intro hgood
    have hg : ¬ (strEndsWith filename pdfSuffix = false) := by simp [hgood]
    refine ⟨?_, ?_, ?_⟩
    · intro hshort
      unfold extract_endpoint extract_resume
      rw [if_pos hshort]
      simp [hg]
    · intro msg hmsg
      unfold extract_endpoint
      rw [hmsg]
      simp [hg]
    · intro rd hrd
      unfold extract_endpoint
      rw [hrd]
      simp [hg]

def wFnameGood : Str := ("resume.pdf".toList)

def wFnameBad : Str := ("resume.txt".toList)

def wErrMsg : Str := ("model failure".toList)

/-- A minimal validated record used to instantiate endpoint theorems. -/
def wResume : ResumeData :=
  { personal_info :=
      { name := ("Jane Roe".toList), email := none, phone := none,
        location := none, linkedin := none, github := none, website := none },
    summary := none, experience := [], education := [],
    skills := { technical := [], soft := [], languages := [], tools := [] },
    certifications := [], projects := [], achievements := [] }

theorem C2_extract_endpoint_behaviour_witness :
    (strEndsWith wFnameBad pdfSuffix = false
        ∧ extract_endpoint wFnameBad (Except.ok wResume)
            = HttpResult.httpError 400 onlyPdfMsg)
      ∧ (strEndsWith wFnameGood pdfSuffix = true
        ∧ (pyStrip ([] : Str)).length < 100
        ∧ extract_endpoint wFnameGood (extract_resume [] (Except.ok wResume))
            = HttpResult.httpError 500 insufficientTextMsg
        ∧ extract_endpoint wFnameGood (Except.error wErrMsg)
            = HttpResult.httpError 500 wErrMsg
        ∧ extract_endpoint wFnameGood (Except.ok wResume)
            = HttpResult.jsonOk wResume) :=
  ⟨⟨by decide,
    (C2_extract_endpoint_behaviour wFnameBad [] (Except.ok wResume)
      (Except.ok wResume)).1 (by decide)⟩,
    ⟨by decide, by decide,
      ((C2_extract_endpoint_behaviour wFnameGood [] (Except.ok wResume)
        (Except.ok wResume)).2 (by decide)).1 (by decide),
      ((C2_extract_endpoint_behaviour wFnameGood [] (Except.ok wResume)
        (Except.error wErrMsg)).2 (by decide)).2.1 wErrMsg rfl,
      ((C2_extract_endpoint_behaviour wFnameGood [] (Except.ok wResume)
        (Except.ok wResume)).2 (by decide)).2.2 wResume rfl⟩⟩

/-! ### C6: statelessness of the analytics functions -/

theorem entryMonths_time_independent (pd : Str → Option PyDate)
    (now1 now2 : PyDate) (e : ExpDict)
    (h : ¬ ((e.end_date.getD []) ≠ [] ∧ lowerStr (e.end_date.getD []) ∈ presentWordList)) :
    entryMonths pd now1 e = entryMonths pd now2 e := by
  rcases e with ⟨co, po, sdq, edq, re⟩
  rcases sdq with _ | sd
  · rfl
  · rcases edq with _ | ed
    · rfl
    · simp only [Option.getD_some] at h
      simp [entryMonths, if_neg h]

/-- C6 (amended): the analytics functions are deterministic in their
input and the ambient resources; in particular
`calculate_experience_years` — the only one reading `datetime.now()` —
is independent of the current date whenever no entry carries a truthy
present/current/now end date. -/
theorem C6_experience_years_time_independent (pd : Str → Option PyDate)
    (now1 now2 : PyDate) (exps : List ExpDict)
    (hnp : ∀ e ∈ exps,
      ¬ ((e.end_date.getD []) ≠ [] ∧ lowerStr (e.end_date.getD []) ∈ presentWordList)) :
    calculate_experience_years pd now1 exps
      = calculate_experience_years pd now2 exps := by
  unfold calculate_experience_years
  rw [foldl_add_eq_sum, foldl_add_eq_sum]
  have hm : exps.map (fun e => entryMonths pd now1 e)
      = exps.map (fun e => entryMonths pd now2 e) :=
    List.map_congr_left
      (fun e he => entryMonths_time_independent pd now1 now2 e (hnp e he))
  rw [hm]

def wPd : Str → Option PyDate :=
  fun s => if s = ("2020".toList) then some { year := 2020, month := 1 } else none

def wNow1 : PyDate := { year := 2021, month := 1 }

def wNow2 : PyDate := { year := 2022, month := 1 }

def wExpFixed : ExpDict :=
  { start_date := some (("2020".toList)), end_date := some (("2021".toList)) }

theorem C6_experience_years_time_independent_witness :
    (∀ e ∈ [wExpFixed],
        ¬ ((e.end_date.getD []) ≠ [] ∧ lowerStr (e.end_date.getD []) ∈ presentWordList))
      ∧ calculate_experience_years wPd wNow1 [wExpFixed]
          = calculate_experience_years wPd wNow2 [wExpFixed] :=
  ⟨by decide,
    C6_experience_years_time_independent wPd wNow1 wNow2 [wExpFixed] (by decide)⟩

theorem pyRound1_intCast (n : ℤ) : pyRound1 ((n : ℚ)) = (n : ℚ) := by
  unfold pyRound1
  rw [show ((n : ℚ)) * 10 = (((n * 10 : ℤ)) : ℚ) by push_cast; ring,
    roundHalfEven_intCast]
  push_cast
  field_simp

def wExpPresent : ExpDict :=
  { start_date := some (("2020".toList)), end_date := some (("Present".toList)) }

/-- C6 counterexample: with a fixed date-parsing oracle and one entry
whose end date is `Present`, `calculate_experience_years` evaluated at
two different current dates returns different results (1.0 vs 2.0), so
its outcome is not a function of the input dictionary alone. -/
theorem C6_time_dependence_counterexample :
    calculate_experience_years wPd wNow1 [wExpPresent]
      ≠ calculate_experience_years wPd wNow2 [wExpPresent] := by
  have h1 : entryMonths wPd wNow1 wExpPresent = 12 := by decide
  have h2 : entryMonths wPd wNow2 wExpPresent = 24 := by decide
  unfold calculate_experience_years
  simp only [List.foldl_cons, List.foldl_nil, zero_add, h1, h2]
  rw [show ((12 : ℤ) : ℚ) / 12 = ((1 : ℤ) : ℚ) by norm_num,
    show ((24 : ℤ) : ℚ) / 12 = ((2 : ℤ) : ℚ) by norm_num,
    pyRound1_intCast, pyRound1_intCast]
  norm_num

/-! ### C7 and C9: `validate_and_enhance` -/

/-- C7 counterexample: on the empty dictionary, `validate_and_enhance`
inserts the empty `personal_info` and then pydantic validation fails
(`PersonalInfo.name` is required), so no record is returned. -/
theorem C7_validate_empty_counterexample :
    validate_and_enhance {} = none := rfl

/-- The personal-info record produced by a successful validation when
the name in the enhanced dictionary is `nm`. -/
def validatedPersonal (d : InData) (nm : Str) : PersonalInfo :=
  { name := nm, email := (enhancedPersonal d).email,
    phone := (enhancedPersonal d).phone,
    location := (enhancedPersonal d).location,
    linkedin := (enhancedPersonal d).linkedin,
    github := (enhancedPersonal d).github,
    website := (enhancedPersonal d).website }

/-- The record produced by a successful run of `validate_and_enhance`. -/
def validatedRecord (d : InData) (nm : Str) (es : List Experience)
    (eds : List Education) : ResumeData :=
  { personal_info := validatedPersonal d nm,
    summary := d.summary, experience := es, education := eds,
    skills := skillsOfIn (d.skills.getD {}),
    certifications := d.certifications.getD [],
    projects := d.projects.getD [],
    achievements := d.achievements.getD [] }

/-- C7 (amended): whenever pydantic validation succeeds — `name` present
after the personal-info fix-up, `company`/`position` present on each
(sorted) experience entry and `institution`/`degree` on each education
entry — `validate_and_enhance` returns a schema-conforming record:
the given name, an at-sign-less truthy email replaced by `None`, and every
list field defaulting to empty; otherwise it raises. -/
theorem C7_validate_and_enhance_schema (d : InData)
    (hname : ((enhancedPersonal d).name).isSome)
    (hexp : ∀ e ∈ (enhancedExperience d).getD [], (validateExp e).isSome)
    (hedu : ∀ e ∈ d.education.getD [], (validateEdu e).isSome) :
    ∃ rd, validate_and_enhance d = some rd
      ∧ some rd.personal_info.name = (enhancedPersonal d).name
      ∧ (∀ em, (d.personal_info.getD {}).email = some em → em ≠ [] →
          strContains em [atC] = false → rd.personal_info.email = none)
      ∧ (d.experience = none → rd.experience = [])
      ∧ (d.education = none → rd.education = [])
      ∧ (d.skills = none →
          rd.skills = { technical := [], soft := [], languages := [], tools := [] })
      ∧ (d.certifications = none → rd.certifications = [])
      ∧ (d.projects = none → rd.projects = [])
      ∧ (d.achievements = none → rd.achievements = []) := by
  obtain ⟨nm, hnm⟩ := Option.isSome_iff_exists.mp hname
  obtain ⟨es, hes⟩ := validateList_isSome_of validateExp _ hexp
  obtain ⟨eds, heds⟩ := validateList_isSome_of validateEdu _ hedu
  have hvp : validatePersonal (enhancedPersonal d)
      = some (validatedPersonal d nm) := by
    unfold validatePersonal validatedPersonal
    rw [hnm]
  have hval : validate_and_enhance d = some (validatedRecord d nm es eds) := by
    unfold validate_and_enhance validatedRecord
    rw [hvp, hes, heds]
  refine ⟨_, hval, hnm.symm, ?_, ?_, ?_, ?_, ?_, ?_, ?_⟩
  · intro em hem hne hnoat
    show (enhancedPersonal d).email = none
    simp [enhancedPersonal, hem, hne, hnoat]
  · intro hx
    show es = []
    have hnone : enhancedExperience d = none := by simp [enhancedExperience, hx]
    rw [hnone] at hes
    simp [validateList] at hes
    exact hes
  · intro hx
    show eds = []
    rw [hx] at heds
    simp [validateList] at heds
    exact heds
  · intro hx
    show skillsOfIn (d.skills.getD {}) = _
    rw [hx]
    rfl
  · intro hx
    show d.certifications.getD [] = []
    rw [hx]
    rfl
  · intro hx
    show d.projects.getD [] = []
    rw [hx]
    rfl
  · intro hx
    show d.achievements.getD [] = []
    rw [hx]
    rfl

def wPersonal7 : InPersonal :=
  { name := some (("John Doe".toList)),
    email := some (("john-at-nowhere".toList)) }

def wExp7 : InExp :=
  { company := some (("Acme".toList)),
    position := some (("Engineer".toList)) }

def wIn7 : InData :=
  { personal_info := some wPersonal7, experience := some [wExp7] }

theorem C7_validate_and_enhance_schema_witness :
    ((enhancedPersonal wIn7).name).isSome
      ∧ (∀ e ∈ (enhancedExperience wIn7).getD [], (validateExp e).isSome)
      ∧ (∀ e ∈ wIn7.education.getD [], (validateEdu e).isSome)
      ∧ ∃ rd, validate_and_enhance wIn7 = some rd
          ∧ some rd.personal_info.name = (enhancedPersonal wIn7).name
          ∧ (∀ em, (wIn7.personal_info.getD {}).email = some em → em ≠ [] →
              strContains em [atC] = false → rd.personal_info.email = none)
          ∧ (wIn7.experience = none → rd.experience = [])
          ∧ (wIn7.education = none → rd.education = [])
          ∧ (wIn7.skills = none →
              rd.skills = { technical := [], soft := [], languages := [], tools := [] })
          ∧ (wIn7.certifications = none → rd.certifications = [])
          ∧ (wIn7.projects = none → rd.projects = [])
          ∧ (wIn7.achievements = none → rd.achievements = []) :=
  ⟨by decide, by decide, by decide,
    C7_validate_and_enhance_schema wIn7 (by decide) (by decide) (by decide)⟩

/-- C9: given that validation succeeds elsewhere, the experience list of
the record returned by `validate_and_enhance` is the stable partition of
the raw entries: those whose `end_date` (defaulting to `Present` when
absent) equals `Present` first, the rest after, each group in original
order — no date values are compared. -/
theorem C9_experience_stable_partition (d : InData) (l : List InExp)
    (hl : d.experience = some l) (hne : l ≠ [])
    (hp : (validatePersonal (enhancedPersonal d)).isSome)
    (hedu : (validateList validateEdu (d.education.getD [])).isSome) :
    Option.map ResumeData.experience (validate_and_enhance d)
      = validateList validateExp
          (l.filter endDateIsPresent
            ++ l.filter (fun e => !(endDateIsPresent e))) := by
  obtain ⟨p, hpv⟩ := Option.isSome_iff_exists.mp hp
  obtain ⟨eds, hev⟩ := Option.isSome_iff_exists.mp hedu
  have hsort : (enhancedExperience d).getD []
      = l.filter endDateIsPresent ++ l.filter (fun e => !(endDateIsPresent e)) := by
    simp [enhancedExperience, hl, hne, pySortedKeyDescBool_eq_partition]
  unfold validate_and_enhance
  rw [hpv, hev, hsort]
  cases hve : validateList validateExp
      (l.filter endDateIsPresent ++ l.filter (fun e => !(endDateIsPresent e))) with
  | none => simp
  | some es => simp

def wExpOld : InExp :=
  { company := some (("OldCo".toList)),
    position := some (("Analyst".toList)),
    end_date := some (("2020".toList)) }

def wExpCur : InExp :=
  { company := some (("NewCo".toList)),
    position := some (("Manager".toList)) }

def wIn9 : InData :=
  { personal_info := some { name := some (("Jo Day".toList)) },
    experience := some [wExpOld, wExpCur] }

theorem C9_experience_stable_partition_witness :
    wIn9.experience = some [wExpOld, wExpCur]
      ∧ [wExpOld, wExpCur] ≠ ([] : List InExp)
      ∧ (validatePersonal (enhancedPersonal wIn9)).isSome
      ∧ (validateList validateEdu (wIn9.education.getD [])).isSome
      ∧ Option.map ResumeData.experience (validate_and_enhance wIn9)
          = validateList validateExp
              ([wExpOld, wExpCur].filter endDateIsPresent
                ++ [wExpOld, wExpCur].filter (fun e => !(endDateIsPresent e))) :=
  ⟨rfl, by decide, by decide, by decide,
    C9_experience_stable_partition wIn9 [wExpOld, wExpCur] rfl (by decide)
      (by decide) (by decide)⟩

end Resume
